import Mathlib

/-!
The header fd_restrict: closing every file descriptor that is not protected

A shallow embedding of `boost/process/detail/posix/fd_restrict.hpp`.

* `collect_filedescriptors` is the customization point: one equation per
  overload of the header, the primary template being the do-nothing default.
* `property_.on_exec_setup` is the launch handler.  It is split, along the
  lines of the source, into the collection pass (`property_.collect`,
  lines 45-50) and the sort-and-close pass (`sort_and_close`, lines 52-58).
* The pieces of the C++ standard library and of POSIX the header relies on
  (`std::vector<int>`, `std::sort`, `std::binary_search`, `::close`,
  `sysconf(_SC_OPEN_MAX)`) are modelled explicitly; the descriptor limit is a
  parameter `maxfd`, the value the source stores in an `int`.
-/

namespace fd_restrict

/-! ## Constants of `<unistd.h>` -/

/-- Descriptor number of standard input. -/
def STDIN_FILENO : Int := 0

/-- Descriptor number of standard output. -/
def STDOUT_FILENO : Int := 1

/-- Descriptor number of standard error. -/
def STDERR_FILENO : Int := 2

/-! ## `std::vector<int>` -/

/-- The `std::vector<int>` behind `_protected_fds`: its elements, the size of
its backing storage, and a count of the times the storage was (re)allocated. -/
structure vector where
  data : List Int
  capacity : Nat
  reallocations : Nat
  deriving DecidableEq, Repr

/-- A default-constructed vector owns no storage. -/
def vector.empty : vector := { data := [], capacity := 0, reallocations := 0 }

/-- Number of elements, `size()`. -/
def vector.size (v : vector) : Nat := v.data.length

/-- The call `reserve(n)`: storage is allocated only when `n` exceeds the
current capacity; the elements are kept. -/
def vector.reserve (v : vector) (n : Nat) : vector :=
  if v.capacity < n then
    { v with capacity := n, reallocations := v.reallocations + 1 }
  else v

/-- The call `resize(n)`: shrinking drops the tail and keeps the storage,
growing appends zeros and reallocates only beyond the capacity. -/
def vector.resize (v : vector) (n : Nat) : vector :=
  if n ≤ v.size then
    { v with data := v.data.take n }
  else if n ≤ v.capacity then
    { v with data := v.data ++ List.replicate (n - v.size) 0 }
  else
    { data := v.data ++ List.replicate (n - v.size) 0
      capacity := v.size + max v.size (n - v.size)
      reallocations := v.reallocations + 1 }

/-- The call `push_back(x)`: when the storage is full it is reallocated (grown
by `max size 1`, the usual doubling), otherwise the element is stored in
place. -/
def vector.push_back (v : vector) (x : Int) : vector :=
  if v.size < v.capacity then
    { v with data := v.data ++ [x] }
  else
    { data := v.data ++ [x]
      capacity := v.size + max v.size 1
      reallocations := v.reallocations + 1 }

/-! ## The customization point -/

/-- The kinds of launch property `collect_filedescriptors` can be asked about.
The eleven built-in kinds are those of the overloads at the end of the header
(the write kinds carry their template parameters `p1`, `p2`); `unregistered`
is a type for which only the primary template is viable; `custom fds` is a
user type with its own overload, which writes `fds` to the output iterator. -/
inductive Property where
  | async_in_buffer
  | async_out_buffer (p1 p2 : Int)
  | async_out_future (p1 p2 : Int)
  | file_in
  | file_out (p1 p2 : Int)
  | null_in
  | null_out (p1 p2 : Int)
  | pipe_in
  | async_pipe_in
  | pipe_out (p1 p2 : Int)
  | async_pipe_out (p1 p2 : Int)
  | unregistered
  | custom (fds : List Int)
  deriving DecidableEq, Repr

/-- The statement `*outit++ = x` on a `back_insert_iterator`: a `push_back`
on the underlying vector. -/
def assign_outit (outit : vector) (x : Int) : vector := outit.push_back x

/-- Body shared, text for text, by the six write overloads:
`if (p1==1||p2==1) *outit++ = STDOUT_FILENO;`
`if (p1==2||p2==2) *outit++ = STDERR_FILENO;` -/
def collect_out (p1 p2 : Int) (outit : vector) : vector :=
  let outit := if p1 = 1 ∨ p2 = 1 then assign_outit outit STDOUT_FILENO else outit
  if p1 = 2 ∨ p2 = 2 then assign_outit outit STDERR_FILENO else outit

/-- The overload set `collect_filedescriptors(property, outit)`, resolved on
the kind of the property. -/
def collect_filedescriptors : Property → vector → vector
  | .async_in_buffer, outit => assign_outit outit STDIN_FILENO
  | .async_out_buffer p1 p2, outit => collect_out p1 p2 outit
  | .async_out_future p1 p2, outit => collect_out p1 p2 outit
  | .file_in, outit => assign_outit outit STDIN_FILENO
  | .file_out p1 p2, outit => collect_out p1 p2 outit
  | .null_in, outit => assign_outit outit STDIN_FILENO
  | .null_out p1 p2, outit => collect_out p1 p2 outit
  | .pipe_in, outit => assign_outit outit STDIN_FILENO
  | .async_pipe_in, outit => assign_outit outit STDIN_FILENO
  | .pipe_out p1 p2, outit => collect_out p1 p2 outit
  | .async_pipe_out p1 p2, outit => collect_out p1 p2 outit
  | .unregistered, outit => outit
  | .custom fds, outit => fds.foldl assign_outit outit

/-- The function object `collect_fd_f`: its call operator forwards the
property and the stored iterator to `collect_filedescriptors`. -/
def collect_fd_f (outit : vector) (property : Property) : vector :=
  collect_filedescriptors property outit

/-- The call `boost::fusion::for_each(seq, visit)`: the visitor is applied to
the elements in sequence order. -/
def for_each (seq : List Property) (outit : vector) : vector :=
  seq.foldl collect_fd_f outit

/-- What one property writes to an empty sink. -/
def contribution (property : Property) : List Int :=
  (collect_filedescriptors property vector.empty).data

/-! ## The process: its descriptor table and `::close` -/

/-- The part of the process the handler acts on: the descriptors that are
open, and the arguments of the `::close` calls made so far, oldest first. -/
structure Process where
  open_fds : List Int
  close_calls : List Int
  deriving DecidableEq, Repr

/-- Whether descriptor `fd` is open. -/
def Process.is_open (proc : Process) (fd : Int) : Bool := decide (fd ∈ proc.open_fds)

/-- The system call `::close(fd)`: returns `0` and closes an open descriptor,
returns `-1` (EBADF) and changes nothing when `fd` is not open. -/
def close (proc : Process) (fd : Int) : Int × Process :=
  (if fd ∈ proc.open_fds then 0 else -1,
   { open_fds := proc.open_fds.filter (fun d => decide (d ≠ fd))
     close_calls := proc.close_calls ++ [fd] })

/-! ## `std::sort` and `std::binary_search` -/

/-- The call `std::sort(begin, end)` on a range of `int`: the range
rearranged in ascending order. -/
def sort (xs : List Int) : List Int := xs.insertionSort (fun a b => a ≤ b)

/-- The loop of `std::lower_bound`: `first` and `count` delimit the part of
the range still searched, halved at each turn.  The leading argument bounds
the number of turns; `count` turns are always enough. -/
def lower_bound_loop (xs : List Int) (value : Int) : Nat → Nat → Nat → Nat
  | 0, first, _ => first
  | fuel + 1, first, count =>
    if 0 < count then
      let step := count / 2
      let it := first + step
      if xs.getD it 0 < value then
        lower_bound_loop xs value fuel (it + 1) (count - (step + 1))
      else
        lower_bound_loop xs value fuel first step
    else first

/-- The call `std::lower_bound(begin, end, value)`, as an index. -/
def lower_bound (xs : List Int) (value : Int) : Nat :=
  lower_bound_loop xs value xs.length 0 xs.length

/-- The call `std::binary_search(begin, end, value)`:
`first != last && !(value < *first)` for `first` the lower bound. -/
def binary_search (xs : List Int) (value : Int) : Bool :=
  let first := lower_bound xs value
  decide (first ≠ xs.length) && !decide (value < xs.getD first 0)

/-! ## The launch property -/

/-- The launch context handed to the handler: `seq` is the sequence of
configured properties; `kind` is how `collect_filedescriptors` resolves for
the executor object itself. -/
structure PosixExecutor where
  kind : Property
  seq : List Property
  deriving DecidableEq, Repr

/-- The entries the collection pass of a configuration appends, in order:
those of the executor itself, then those of each element of `exec.seq`. -/
def contributions (exec : PosixExecutor) : List Int :=
  contribution exec.kind ++ (exec.seq.map contribution).flatten

/-- The handler object: it owns the reusable buffer of protected
descriptors. -/
structure property_ where
  _protected_fds : vector
  deriving DecidableEq, Repr

/-- The constructor `property_(capacity)`: reserves the buffer. -/
def property_.construct (capacity : Nat) : property_ :=
  { _protected_fds := vector.empty.reserve capacity }

/-- Lines 45-50 of `on_exec_setup`: the buffer is reset to length zero, then
the visitor is applied to the executor and to each element of `exec.seq`. -/
def property_.collect (self : property_) (exec : PosixExecutor) : vector :=
  let fds := self._protected_fds.resize 0
  let fds := collect_fd_f fds exec.kind
  for_each exec.seq fds

/-- The `for` loop of lines 55-58, `fd` running upwards while `fd < maxfd`:
a descriptor the binary search does not find is passed to `::close`, whose
result is discarded.  The leading argument bounds the number of turns. -/
def close_loop (fds : List Int) (maxfd : Int) : Nat → Int → Process → Process
  | 0, _, proc => proc
  | fuel + 1, fd, proc =>
    if fd < maxfd then
      close_loop fds maxfd fuel (fd + 1)
        (if !binary_search fds fd then (close proc fd).2 else proc)
    else proc

/-- Lines 52-58 of `on_exec_setup`: the buffer is sorted in place, then the
loop runs from `fd = 0` with `maxfd` the descriptor limit; `maxfd` turns
exhaust it. -/
def sort_and_close (fds : vector) (maxfd : Int) (proc : Process) : vector × Process :=
  let fds := { fds with data := sort fds.data }
  (fds, close_loop fds.data maxfd maxfd.toNat 0 proc)

/-- The handler `on_exec_setup(exec)`: collection, then sort-and-close.  It
returns the handler with its buffer as left by the call, and the process. -/
def property_.on_exec_setup (self : property_) (exec : PosixExecutor) (maxfd : Int)
    (proc : Process) : property_ × Process :=
  let r := sort_and_close (self.collect exec) maxfd proc
  ({ _protected_fds := r.1 }, r.2)

/-! ## The loop over an arbitrary `::close` -/

/-- The `for` loop of lines 55-58 with the system call left open: `sys_close`
is any behaviour of `::close` on a kernel state `σ`, returning any result
code.  The loop discards the result, as the source does; next to the kernel
state it records the descriptors it passed to the call, oldest first. -/
def close_loop_sys {σ : Type} (sys_close : σ → Int → Int × σ) (fds : List Int) (maxfd : Int) :
    Nat → Int → σ × List Int → σ × List Int
  | 0, _, st => st
  | fuel + 1, fd, st =>
    if fd < maxfd then
      close_loop_sys sys_close fds maxfd fuel (fd + 1)
        (if !binary_search fds fd then ((sys_close st.1 fd).2, st.2 ++ [fd]) else st)
    else st

/-- Lines 52-58 of `on_exec_setup` over an arbitrary `::close`: the sorted
buffer, the kernel state and the calls made. -/
def sort_and_close_sys {σ : Type} (sys_close : σ → Int → Int × σ) (fds : vector) (maxfd : Int)
    (st : σ) : vector × σ × List Int :=
  let fds := { fds with data := sort fds.data }
  (fds, close_loop_sys sys_close fds.data maxfd maxfd.toNat 0 (st, []))

/-! ## Reference notions the handler is compared with -/

/-- The descriptor numbers of `[0, maxfd)`, ascending. -/
def descriptors_below (maxfd : Int) : List Int :=
  (List.range maxfd.toNat).map (fun n : Nat => (n : Int))

/-- The naive closing pass: each descriptor of `[0, maxfd)`, in ascending
order, that fails a linear membership test on the unsorted buffer is passed to
`::close`. -/
def naive_close_pass (fds : List Int) (maxfd : Int) (proc : Process) : Process :=
  (descriptors_below maxfd).foldl
    (fun proc d => if d ∈ fds then proc else (close proc d).2) proc

/-- The read kinds: the five overloads that assign `STDIN_FILENO`. -/
def Property.is_read : Property → Bool
  | .async_in_buffer => true
  | .file_in => true
  | .null_in => true
  | .pipe_in => true
  | .async_pipe_in => true
  | _ => false

/-- The write kinds: the six overloads parameterised by `p1`, `p2`. -/
def Property.is_write : Property → Bool
  | .async_out_buffer _ _ => true
  | .async_out_future _ _ => true
  | .file_out _ _ => true
  | .null_out _ _ => true
  | .pipe_out _ _ => true
  | .async_pipe_out _ _ => true
  | _ => false

/-- The built-in kinds: the read kinds, the write kinds, and the kinds left to
the primary template; only a user overload is excluded. -/
def Property.is_builtin : Property → Bool
  | .custom _ => false
  | _ => true

/-- A write kind bound to both standard output and standard error: one
parameter is 1 and one is 2. -/
def Property.binds_both : Property → Bool
  | .async_out_buffer p1 p2 => decide ((p1 = 1 ∨ p2 = 1) ∧ (p1 = 2 ∨ p2 = 2))
  | .async_out_future p1 p2 => decide ((p1 = 1 ∨ p2 = 1) ∧ (p1 = 2 ∨ p2 = 2))
  | .file_out p1 p2 => decide ((p1 = 1 ∨ p2 = 1) ∧ (p1 = 2 ∨ p2 = 2))
  | .null_out p1 p2 => decide ((p1 = 1 ∨ p2 = 1) ∧ (p1 = 2 ∨ p2 = 2))
  | .pipe_out p1 p2 => decide ((p1 = 1 ∨ p2 = 1) ∧ (p1 = 2 ∨ p2 = 2))
  | .async_pipe_out p1 p2 => decide ((p1 = 1 ∨ p2 = 1) ∧ (p1 = 2 ∨ p2 = 2))
  | _ => false

/-! ## The binary search on the sorted buffer decides membership -/

/-- Elements of a sorted list, read with `getD`, are ascending in the index. -/
theorem sorted_getD_le {xs : List Int} (hs : xs.Sorted (fun a b => a ≤ b)) {i j : Nat}
    (hij : i ≤ j) (hj : j < xs.length) : xs.getD i 0 ≤ xs.getD j 0 := by
  have hi : i < xs.length := lt_of_le_of_lt hij hj
  rw [List.getD_eq_getElem xs 0 hi, List.getD_eq_getElem xs 0 hj]
  have h := hs.rel_get_of_le (a := ⟨i, hi⟩) (b := ⟨j, hj⟩) hij
  simpa using h

/-- Invariant of the `lower_bound` loop on a sorted range: everything left of
`first` is below `value`, everything from `first + count` on is not; with at
least `count` turns allowed the loop ends on the partition point. -/
theorem lower_bound_loop_spec {xs : List Int} (hs : xs.Sorted (fun a b => a ≤ b)) (value : Int) :
    ∀ (fuel first count : Nat), count ≤ fuel → first + count ≤ xs.length →
      (∀ i, i < first → xs.getD i 0 < value) →
      (∀ i, first + count ≤ i → i < xs.length → value ≤ xs.getD i 0) →
      lower_bound_loop xs value fuel first count ≤ xs.length ∧
      (∀ i, i < lower_bound_loop xs value fuel first count → xs.getD i 0 < value) ∧
      (∀ i, lower_bound_loop xs value fuel first count ≤ i → i < xs.length →
        value ≤ xs.getD i 0) := by
  intro fuel
  induction fuel with
  | zero =>
    intro first count hc hlen hlo hhi
    have hc0 : count = 0 := by omega
    subst hc0
    simp only [lower_bound_loop]
    exact ⟨by omega, hlo, fun i hi hil => hhi i (by omega) hil⟩
  | succ fuel ih =>
    intro first count hc hlen hlo hhi
    simp only [lower_bound_loop]
    by_cases hpos : 0 < count
    · rw [if_pos hpos]
      have hstep : count / 2 < count := Nat.div_lt_self hpos (by decide)
      by_cases hlt : xs.getD (first + count / 2) 0 < value
      · rw [if_pos hlt]
        apply ih
        · omega
        · omega
        · intro i hi
          have hle : xs.getD i 0 ≤ xs.getD (first + count / 2) 0 :=
            sorted_getD_le hs (by omega) (by omega)
          exact lt_of_le_of_lt hle hlt
        · intro i hi hil
          exact hhi i (by omega) hil
      · rw [if_neg hlt]
        apply ih
        · omega
        · omega
        · exact hlo
        · intro i hi hil
          have hle : xs.getD (first + count / 2) 0 ≤ xs.getD i 0 :=
            sorted_getD_le hs hi hil
          exact le_trans (not_lt.mp hlt) hle
    · rw [if_neg hpos]
      have hc0 : count = 0 := by omega
      subst hc0
      exact ⟨by omega, hlo, fun i hi hil => hhi i (by omega) hil⟩

/-- The partition point found by `lower_bound` on a sorted list. -/
theorem lower_bound_spec {xs : List Int} (hs : xs.Sorted (fun a b => a ≤ b)) (value : Int) :
    lower_bound xs value ≤ xs.length ∧
    (∀ i, i < lower_bound xs value → xs.getD i 0 < value) ∧
    (∀ i, lower_bound xs value ≤ i → i < xs.length → value ≤ xs.getD i 0) :=
  lower_bound_loop_spec hs value xs.length 0 xs.length le_rfl (by omega)
    (fun i hi => absurd hi (Nat.not_lt_zero i)) (fun i hi hil => absurd hil (by omega))

/-- On a sorted list `binary_search` answers exactly the membership test. -/
theorem binary_search_sorted {xs : List Int} (hs : xs.Sorted (fun a b => a ≤ b)) (value : Int) :
    binary_search xs value = true ↔ value ∈ xs := by
  obtain ⟨hlen, hlo, hhi⟩ := lower_bound_spec hs value
  simp only [binary_search, Bool.and_eq_true, decide_eq_true_eq, Bool.not_eq_true',
    decide_eq_false_iff_not, not_lt]
  constructor
  · rintro ⟨hne, hle⟩
    have hlt : lower_bound xs value < xs.length := lt_of_le_of_ne hlen hne
    have hge := hhi _ le_rfl hlt
    have heq : xs.getD (lower_bound xs value) 0 = value := le_antisymm hle hge
    rw [List.getD_eq_getElem xs 0 hlt] at heq
    exact List.mem_iff_getElem.mpr ⟨_, hlt, heq⟩
  · intro hmem
    obtain ⟨n, hn, hnv⟩ := List.mem_iff_getElem.mp hmem
    have hnD : xs.getD n 0 = value := by rw [List.getD_eq_getElem xs 0 hn]; exact hnv
    have hfn : lower_bound xs value ≤ n := by
      by_contra hcon
      have := hlo n (by omega)
      omega
    refine ⟨by omega, ?_⟩
    have := sorted_getD_le hs hfn hn
    omega

/-- The result of `sort` is ascending. -/
theorem sort_sorted (xs : List Int) : (sort xs).Sorted (fun a b => a ≤ b) :=
  List.sorted_insertionSort _ xs

/-- The result of `sort` is a rearrangement of its argument. -/
theorem sort_perm (xs : List Int) : (sort xs).Perm xs :=
  List.perm_insertionSort _ xs

/-- Sorting keeps the elements. -/
theorem mem_sort (xs : List Int) (x : Int) : x ∈ sort xs ↔ x ∈ xs :=
  (sort_perm xs).mem_iff

/-- After `std::sort`, `std::binary_search` finds exactly the elements of the
unsorted buffer. -/
theorem binary_search_sort (xs : List Int) (value : Int) :
    binary_search (sort xs) value = true ↔ value ∈ xs := by
  rw [binary_search_sorted (sort_sorted xs), mem_sort]

/-! ## The closing loop -/

/-- The loop depends on the buffer only through the answers of the search. -/
theorem close_loop_congr {fds₁ fds₂ : List Int}
    (h : ∀ d, binary_search fds₁ d = binary_search fds₂ d) (maxfd : Int) :
    ∀ (fuel : Nat) (fd : Int) (proc : Process),
      close_loop fds₁ maxfd fuel fd proc = close_loop fds₂ maxfd fuel fd proc := by
  intro fuel
  induction fuel with
  | zero => intro fd proc; rfl
  | succ fuel ih =>
    intro fd proc
    simp only [close_loop, h fd, ih]

/-- Turns beyond `maxfd - fd` are never taken: any larger bound on the number
of turns gives the result of exactly `maxfd - fd` turns. -/
theorem close_loop_fuel (fds : List Int) (maxfd : Int) :
    ∀ (fuel : Nat) (fd : Int) (proc : Process), (maxfd - fd).toNat ≤ fuel →
      close_loop fds maxfd fuel fd proc
        = close_loop fds maxfd (maxfd - fd).toNat fd proc := by
  intro fuel
  induction fuel with
  | zero =>
    intro fd proc h
    have h0 : (maxfd - fd).toNat = 0 := by omega
    rw [h0]
  | succ fuel ih =>
    intro fd proc h
    by_cases hlt : fd < maxfd
    · obtain ⟨k, hk⟩ : ∃ k, (maxfd - fd).toNat = k + 1 := ⟨(maxfd - fd).toNat - 1, by omega⟩
      have hk' : (maxfd - (fd + 1)).toNat = k := by omega
      rw [hk]
      simp only [close_loop, if_pos hlt]
      rw [ih (fd + 1) _ (by omega), hk']
    · have h0 : (maxfd - fd).toNat = 0 := by omega
      rw [h0]
      simp only [close_loop, if_neg hlt]

/-- The descriptors left open by the loop: those that were open, minus the
ones the loop visited and the search did not find. -/
theorem close_loop_open_fds (fds : List Int) (maxfd : Int) :
    ∀ (fuel : Nat) (fd : Int) (proc : Process),
      (close_loop fds maxfd fuel fd proc).open_fds
        = proc.open_fds.filter (fun d =>
            !(decide (fd ≤ d) && decide (d < fd + fuel) && decide (d < maxfd)
              && !binary_search fds d)) := by
  intro fuel
  induction fuel with
  | zero =>
    intro fd proc
    simp only [close_loop]
    symm
    rw [List.filter_eq_self]
    intro d _
    have : ¬ (fd ≤ d ∧ d < fd + ((0 : Nat) : Int)) := by omega
    simp only [Bool.not_eq_true', Bool.and_eq_false_iff, decide_eq_false_iff_not]
    by_cases h1 : fd ≤ d
    · exact Or.inl (Or.inl (Or.inr (by omega)))
    · exact Or.inl (Or.inl (Or.inl h1))
  | succ fuel ih =>
    intro fd proc
    simp only [close_loop]
    by_cases hlt : fd < maxfd
    · rw [if_pos hlt, ih]
      cases hb : binary_search fds fd
      · simp only [Bool.not_false, if_true, close, List.filter_filter]
        apply List.filter_congr
        intro d _
        cases hd : binary_search fds d
        · simp only [Bool.not_false, Bool.and_true]
          by_cases e : d = fd
          · subst e; simp [hlt]
          · have e1 : (fd + 1 ≤ d) = (fd ≤ d) := by
              apply propext; constructor <;> intro _ <;> omega
            have e2 : (d < fd + 1 + (fuel : Int)) = (d < fd + ((fuel + 1 : Nat) : Int)) := by
              apply propext; constructor <;> intro _ <;> omega
            simp [e1, e2, e]
        · by_cases e : d = fd
          · subst e; rw [hb] at hd; cases hd
          · simp [e]
      · simp only [Bool.not_true, Bool.false_eq_true, if_false]
        apply List.filter_congr
        intro d _
        cases hd : binary_search fds d
        · have e : d ≠ fd := by intro e; subst e; rw [hb] at hd; cases hd
          have e1 : (fd + 1 ≤ d) = (fd ≤ d) := by
            apply propext; constructor <;> intro _ <;> omega
          have e2 : (d < fd + 1 + (fuel : Int)) = (d < fd + ((fuel + 1 : Nat) : Int)) := by
            apply propext; constructor <;> intro _ <;> omega
          simp only [e1, e2]
        · simp
    · rw [if_neg hlt]
      symm
      rw [List.filter_eq_self]
      intro d _
      by_cases h1 : fd ≤ d
      · have : ¬ d < maxfd := by omega
        simp [this]
      · simp [h1]

/-- The descriptors left open by the sort-and-close pass: those that were
open and are either outside `[0, maxfd)` or in the buffer. -/
theorem sort_and_close_open_fds (fds : vector) (maxfd : Int) (proc : Process) :
    (sort_and_close fds maxfd proc).2.open_fds
      = proc.open_fds.filter (fun d =>
          !(decide (0 ≤ d) && decide (d < maxfd)) || decide (d ∈ fds.data)) := by
  simp only [sort_and_close, close_loop_open_fds]
  apply List.filter_congr
  intro d _
  have hb : binary_search (sort fds.data) d = decide (d ∈ fds.data) := by
    rw [Bool.eq_iff_iff, binary_search_sort]; simp
  rw [hb]
  by_cases h0 : 0 ≤ d <;> by_cases h1 : d < maxfd <;> by_cases h2 : d ∈ fds.data
    <;> simp [h0, h1, h2]

/-- Membership form of `sort_and_close_open_fds`. -/
theorem is_open_sort_and_close (fds : vector) (maxfd : Int) (proc : Process) (d : Int) :
    (sort_and_close fds maxfd proc).2.is_open d = true
      ↔ proc.is_open d = true ∧ (¬ (0 ≤ d ∧ d < maxfd) ∨ d ∈ fds.data) := by
  simp only [Process.is_open, sort_and_close_open_fds, decide_eq_true_eq, List.mem_filter,
    Bool.or_eq_true, Bool.not_eq_true', Bool.and_eq_false_iff, decide_eq_false_iff_not]
  tauto

/-! ## The collection pass -/

/-- The elements after `push_back`. -/
theorem push_back_data (v : vector) (x : Int) : (v.push_back x).data = v.data ++ [x] := by
  unfold vector.push_back
  split <;> rfl

/-- The elements after a run of assignments through the output iterator. -/
theorem foldl_assign_outit_data (l : List Int) :
    ∀ v : vector, (l.foldl assign_outit v).data = v.data ++ l := by
  induction l with
  | nil => intro v; simp
  | cons x l ih =>
    intro v
    rw [List.foldl_cons, ih, assign_outit, push_back_data, List.append_assoc]
    rfl

/-- A run of assignments that fits in the reserved storage neither grows nor
reallocates it. -/
theorem foldl_assign_outit_storage (l : List Int) :
    ∀ v : vector, v.size + l.length ≤ v.capacity →
      (l.foldl assign_outit v).capacity = v.capacity ∧
      (l.foldl assign_outit v).reallocations = v.reallocations := by
  induction l with
  | nil => intro v _; exact ⟨rfl, rfl⟩
  | cons x l ih =>
    intro v h
    simp only [List.length_cons] at h
    have hlt : v.size < v.capacity := by omega
    have hp : assign_outit v x = { v with data := v.data ++ [x] } := by
      simp only [assign_outit, vector.push_back, if_pos hlt]
    rw [List.foldl_cons, hp]
    have := ih { v with data := v.data ++ [x] }
      (by simp only [vector.size, List.length_append, List.length_singleton] at *; omega)
    simpa using this

/-- What a write kind contributes: fd 1 when a parameter is 1, then fd 2 when
a parameter is 2. -/
theorem collect_out_eq (p1 p2 : Int) (outit : vector) :
    collect_out p1 p2 outit
      = (((if p1 = 1 ∨ p2 = 1 then [STDOUT_FILENO] else [])
          ++ (if p1 = 2 ∨ p2 = 2 then [STDERR_FILENO] else [])).foldl assign_outit outit) := by
  unfold collect_out
  by_cases h1 : p1 = 1 ∨ p2 = 1 <;> by_cases h2 : p1 = 2 ∨ p2 = 2 <;> simp [h1, h2]

/-- Every overload acts on the sink by assigning its contribution, entry by
entry. -/
theorem collect_filedescriptors_eq (property : Property) (outit : vector) :
    collect_filedescriptors property outit
      = (contribution property).foldl assign_outit outit := by
  cases property with
  | custom fds =>
    simp only [contribution, collect_filedescriptors, foldl_assign_outit_data, vector.empty,
      List.nil_append]
  | unregistered => rfl
  | async_in_buffer => rfl
  | file_in => rfl
  | null_in => rfl
  | pipe_in => rfl
  | async_pipe_in => rfl
  | async_out_buffer p1 p2 =>
    simp only [contribution, collect_filedescriptors, collect_out_eq, foldl_assign_outit_data,
      vector.empty, List.nil_append]
  | async_out_future p1 p2 =>
    simp only [contribution, collect_filedescriptors, collect_out_eq, foldl_assign_outit_data,
      vector.empty, List.nil_append]
  | file_out p1 p2 =>
    simp only [contribution, collect_filedescriptors, collect_out_eq, foldl_assign_outit_data,
      vector.empty, List.nil_append]
  | null_out p1 p2 =>
    simp only [contribution, collect_filedescriptors, collect_out_eq, foldl_assign_outit_data,
      vector.empty, List.nil_append]
  | pipe_out p1 p2 =>
    simp only [contribution, collect_filedescriptors, collect_out_eq, foldl_assign_outit_data,
      vector.empty, List.nil_append]
  | async_pipe_out p1 p2 =>
    simp only [contribution, collect_filedescriptors, collect_out_eq, foldl_assign_outit_data,
      vector.empty, List.nil_append]

/-- Visiting a sequence assigns the contributions of its elements, in sequence
order. -/
theorem for_each_eq (seq : List Property) :
    ∀ outit : vector,
      for_each seq outit = ((seq.map contribution).flatten).foldl assign_outit outit := by
  induction seq with
  | nil => intro outit; rfl
  | cons o seq ih =>
    intro outit
    have h := ih (collect_fd_f outit o)
    simp only [for_each] at h ⊢
    rw [List.foldl_cons, h, List.map_cons, List.flatten_cons, List.foldl_append]
    simp only [collect_fd_f, collect_filedescriptors_eq]

/-- The collection pass resets the buffer and assigns the contributions. -/
theorem collect_eq (self : property_) (exec : PosixExecutor) :
    self.collect exec
      = (contributions exec).foldl assign_outit (self._protected_fds.resize 0) := by
  simp only [property_.collect, for_each_eq, collect_fd_f, collect_filedescriptors_eq,
    contributions, List.foldl_append]

/-- The elements after `resize(0)`: none. -/
theorem resize_zero_data (v : vector) : (v.resize 0).data = [] := by
  simp [vector.resize]

/-- The buffer after the collection pass holds the contributions. -/
theorem collect_data (self : property_) (exec : PosixExecutor) :
    (self.collect exec).data = contributions exec := by
  rw [collect_eq, foldl_assign_outit_data, resize_zero_data, List.nil_append]

/-- Buffers with the same elements give the same answers to the search once
sorted. -/
theorem binary_search_sort_congr {xs ys : List Int} (h : ∀ d, d ∈ xs ↔ d ∈ ys) (d : Int) :
    binary_search (sort xs) d = binary_search (sort ys) d := by
  rw [Bool.eq_iff_iff, binary_search_sort, binary_search_sort]
  exact h d

/-- Buffers with the same elements drive the process identically: the same
calls to `::close`, the same descriptors left open. -/
theorem sort_and_close_congr {fds₁ fds₂ : vector} (h : ∀ d, d ∈ fds₁.data ↔ d ∈ fds₂.data)
    (maxfd : Int) (proc : Process) :
    (sort_and_close fds₁ maxfd proc).2 = (sort_and_close fds₂ maxfd proc).2 := by
  simp only [sort_and_close]
  exact close_loop_congr (binary_search_sort_congr h) maxfd _ _ _

/-- A collection pass whose entries fit in the capacity the buffer already
has neither grows nor reallocates the storage. -/
theorem collect_storage (self : property_) (exec : PosixExecutor)
    (h : (contributions exec).length ≤ self._protected_fds.capacity) :
    (self.collect exec).capacity = self._protected_fds.capacity ∧
    (self.collect exec).reallocations = self._protected_fds.reallocations := by
  rw [collect_eq]
  have hr : self._protected_fds.resize 0
      = { self._protected_fds with data := self._protected_fds.data.take 0 } := by
    simp [vector.resize]
  have := foldl_assign_outit_storage (contributions exec) (self._protected_fds.resize 0)
    (by rw [hr]; simpa [vector.size] using h)
  rw [hr] at this ⊢
  simpa using this

/-- The constructor reserves exactly the capacity it is given. -/
theorem construct_capacity (capacity : Nat) :
    (property_.construct capacity)._protected_fds.capacity = capacity := by
  simp only [property_.construct, vector.reserve, vector.empty]
  split
  · rfl
  · simp only; omega

/-- Rearranging the sequence rearranges the collected entries. -/
theorem contributions_perm (kind : Property) {seq₁ seq₂ : List Property}
    (h : seq₁.Perm seq₂) :
    (contributions ⟨kind, seq₁⟩).Perm (contributions ⟨kind, seq₂⟩) := by
  simp only [contributions]
  exact List.Perm.append_left _ (List.Perm.flatten (h.map contribution))

/-- Rearrangements of one another sort to the same list. -/
theorem sort_eq_of_perm {xs ys : List Int} (h : xs.Perm ys) : sort xs = sort ys :=
  List.eq_of_perm_of_sorted ((sort_perm xs).trans (h.trans (sort_perm ys).symm))
    (sort_sorted xs) (sort_sorted ys)

/-! ## The loop as a pass over the descriptors below the limit -/

/-- The loop, started at `k` with no more turns than descriptors left below
the limit, is a left fold over the descriptors it visits. -/
theorem close_loop_eq_foldl (fds : List Int) (maxfd : Int) :
    ∀ (fuel k : Nat) (proc : Process), (k : Int) + (fuel : Int) ≤ maxfd →
      close_loop fds maxfd fuel (k : Int) proc
        = ((List.range' k fuel).map (fun n : Nat => (n : Int))).foldl
            (fun proc d => if binary_search fds d then proc else (close proc d).2) proc := by
  intro fuel
  induction fuel with
  | zero => intro k proc _; rfl
  | succ fuel ih =>
    intro k proc h
    have hlt : (k : Int) < maxfd := by push_cast at h; omega
    have hnext := ih (k + 1) (if !binary_search fds (k : Int) then (close proc (k : Int)).2 else proc)
      (by push_cast at h ⊢; omega)
    simp only [close_loop, if_pos hlt, List.range'_succ, List.map_cons, List.foldl_cons]
    rw [show ((k : Int) + 1) = ((k + 1 : Nat) : Int) by push_cast; rfl, hnext]
    cases binary_search fds (k : Int) <;> rfl

/-- The whole loop of `sort_and_close` is a left fold over the descriptors
below the limit. -/
theorem close_loop_descriptors_below (fds : List Int) (maxfd : Int) (proc : Process) :
    close_loop fds maxfd maxfd.toNat 0 proc
      = (descriptors_below maxfd).foldl
          (fun proc d => if binary_search fds d then proc else (close proc d).2) proc := by
  have h := close_loop_eq_foldl fds maxfd maxfd.toNat 0 proc
  by_cases hm : 0 ≤ maxfd
  · have := h (by rw [Int.toNat_of_nonneg hm]; simp)
    simpa [descriptors_below, List.range_eq_range'] using this
  · have h0 : maxfd.toNat = 0 := by omega
    simp [descriptors_below, h0, close_loop]

/-- The calls a fold of conditional closes adds to the record: the visited
descriptors that are not kept, in order. -/
theorem foldl_close_calls (keep : Int → Bool) (l : List Int) :
    ∀ proc : Process,
      (l.foldl (fun proc d => if keep d then proc else (close proc d).2) proc).close_calls
        = proc.close_calls ++ l.filter (fun d => !keep d) := by
  induction l with
  | nil => intro proc; simp
  | cons d l ih =>
    intro proc
    rw [List.foldl_cons, ih]
    cases hk : keep d <;> simp [hk, close]

/-- The calls the sort-and-close pass adds to the record: the descriptors
below the limit that are not in the buffer, ascending. -/
theorem sort_and_close_close_calls (fds : vector) (maxfd : Int) (proc : Process) :
    (sort_and_close fds maxfd proc).2.close_calls
      = proc.close_calls
          ++ (descriptors_below maxfd).filter (fun d => decide (d ∉ fds.data)) := by
  simp only [sort_and_close, close_loop_descriptors_below, foldl_close_calls]
  congr 1
  apply List.filter_congr
  intro d _
  have hb : binary_search (sort fds.data) d = decide (d ∈ fds.data) := by
    rw [Bool.eq_iff_iff, binary_search_sort]; simp
  rw [hb]
  by_cases h : d ∈ fds.data <;> simp [h]

/-- Membership in `descriptors_below`. -/
theorem mem_descriptors_below (maxfd d : Int) :
    d ∈ descriptors_below maxfd ↔ 0 ≤ d ∧ d < maxfd := by
  simp only [descriptors_below, List.mem_map, List.mem_range]
  constructor
  · rintro ⟨n, hn, rfl⟩
    omega
  · rintro ⟨h0, h1⟩
    exact ⟨d.toNat, by omega, by omega⟩

/-- The list `descriptors_below` is strictly ascending. -/
theorem descriptors_below_pairwise (maxfd : Int) :
    (descriptors_below maxfd).Pairwise (fun a b => a < b) :=
  List.Pairwise.map _ (fun _ _ h => by exact_mod_cast h) (List.pairwise_lt_range _)

/-- The calls recorded by the loop over an arbitrary `::close` are those a
fold over the visited descriptors records: no result or effect of the call
enters. -/
theorem close_loop_sys_calls {σ : Type} (sys_close : σ → Int → Int × σ) (fds : List Int)
    (maxfd : Int) :
    ∀ (fuel k : Nat) (st : σ × List Int), (k : Int) + (fuel : Int) ≤ maxfd →
      (close_loop_sys sys_close fds maxfd fuel (k : Int) st).2
        = st.2 ++ ((List.range' k fuel).map (fun n : Nat => (n : Int))).filter
            (fun d => !binary_search fds d) := by
  intro fuel
  induction fuel with
  | zero => intro k st _; simp [close_loop_sys]
  | succ fuel ih =>
    intro k st h
    have hlt : (k : Int) < maxfd := by push_cast at h; omega
    simp only [close_loop_sys, if_pos hlt, List.range'_succ, List.map_cons]
    rw [show ((k : Int) + 1) = ((k + 1 : Nat) : Int) by push_cast; rfl,
      ih (k + 1) _ (by push_cast at h ⊢; omega)]
    cases hb : binary_search fds (k : Int) <;> simp [hb, List.filter_cons]

/-- Turns beyond `maxfd - fd` are never taken by the loop over an arbitrary
`::close` either. -/
theorem close_loop_sys_fuel {σ : Type} (sys_close : σ → Int → Int × σ) (fds : List Int)
    (maxfd : Int) :
    ∀ (fuel : Nat) (fd : Int) (st : σ × List Int), (maxfd - fd).toNat ≤ fuel →
      close_loop_sys sys_close fds maxfd fuel fd st
        = close_loop_sys sys_close fds maxfd (maxfd - fd).toNat fd st := by
  intro fuel
  induction fuel with
  | zero =>
    intro fd st h
    have h0 : (maxfd - fd).toNat = 0 := by omega
    rw [h0]
  | succ fuel ih =>
    intro fd st h
    by_cases hlt : fd < maxfd
    · obtain ⟨k, hk⟩ : ∃ k, (maxfd - fd).toNat = k + 1 := ⟨(maxfd - fd).toNat - 1, by omega⟩
      have hk' : (maxfd - (fd + 1)).toNat = k := by omega
      rw [hk]
      simp only [close_loop_sys, if_pos hlt]
      rw [ih (fd + 1) _ (by omega), hk']
    · have h0 : (maxfd - fd).toNat = 0 := by omega
      rw [h0]
      simp only [close_loop_sys, if_neg hlt]

/-- With the `::close` of the process model for the system call, the loop
over an arbitrary `::close` is the loop of the handler. -/
theorem close_loop_sys_close (fds : List Int) (maxfd : Int) :
    ∀ (fuel : Nat) (fd : Int) (st : Process × List Int),
      (close_loop_sys close fds maxfd fuel fd st).1 = close_loop fds maxfd fuel fd st.1 := by
  intro fuel
  induction fuel with
  | zero => intro fd st; rfl
  | succ fuel ih =>
    intro fd st
    simp only [close_loop_sys, close_loop]
    by_cases hlt : fd < maxfd
    · rw [if_pos hlt, if_pos hlt, ih]
      cases binary_search fds fd <;> rfl
    · rw [if_neg hlt, if_neg hlt]

/-! ## The contributions of the built-in kinds -/

/-- What the shared body of the write overloads leaves in an empty sink. -/
theorem collect_out_empty_data (p1 p2 : Int) :
    (collect_out p1 p2 vector.empty).data
      = (if p1 = 1 ∨ p2 = 1 then [1] else []) ++ (if p1 = 2 ∨ p2 = 2 then [2] else []) := by
  rw [collect_out_eq, foldl_assign_outit_data]
  rfl

/-- A read kind contributes standard input and nothing else. -/
theorem contribution_of_read (o : Property) (h : o.is_read = true) : contribution o = [0] := by
  cases o <;> first | rfl | cases h

/-- A write kind bound to both streams contributes 1 then 2. -/
theorem contribution_of_binds_both (o : Property) (h : o.binds_both = true) :
    contribution o = [1, 2] := by
  cases o <;>
    first
    | cases h
    | (simp only [Property.binds_both, decide_eq_true_eq] at h
       simp only [contribution, collect_filedescriptors, collect_out_empty_data, h.1, h.2,
         if_true, List.singleton_append])

/-- A built-in kind contributes standard streams only. -/
theorem contribution_of_builtin_mem (o : Property) (h : o.is_builtin = true) (d : Int)
    (hd : d ∈ contribution o) : d = 0 ∨ d = 1 ∨ d = 2 := by
  cases o with
  | custom fds => cases h
  | unregistered => simp [contribution, collect_filedescriptors, vector.empty] at hd
  | async_in_buffer =>
    have hc : contribution Property.async_in_buffer = [0] := rfl
    rw [hc] at hd; simp at hd; exact Or.inl hd
  | file_in =>
    have hc : contribution Property.file_in = [0] := rfl
    rw [hc] at hd; simp at hd; exact Or.inl hd
  | null_in =>
    have hc : contribution Property.null_in = [0] := rfl
    rw [hc] at hd; simp at hd; exact Or.inl hd
  | pipe_in =>
    have hc : contribution Property.pipe_in = [0] := rfl
    rw [hc] at hd; simp at hd; exact Or.inl hd
  | async_pipe_in =>
    have hc : contribution Property.async_pipe_in = [0] := rfl
    rw [hc] at hd; simp at hd; exact Or.inl hd
  | async_out_buffer p1 p2 =>
    simp only [contribution, collect_filedescriptors, collect_out_empty_data] at hd
    by_cases h1 : p1 = 1 ∨ p2 = 1 <;> by_cases h2 : p1 = 2 ∨ p2 = 2 <;>
      simp [h1, h2] at hd <;> omega
  | async_out_future p1 p2 =>
    simp only [contribution, collect_filedescriptors, collect_out_empty_data] at hd
    by_cases h1 : p1 = 1 ∨ p2 = 1 <;> by_cases h2 : p1 = 2 ∨ p2 = 2 <;>
      simp [h1, h2] at hd <;> omega
  | file_out p1 p2 =>
    simp only [contribution, collect_filedescriptors, collect_out_empty_data] at hd
    by_cases h1 : p1 = 1 ∨ p2 = 1 <;> by_cases h2 : p1 = 2 ∨ p2 = 2 <;>
      simp [h1, h2] at hd <;> omega
  | null_out p1 p2 =>
    simp only [contribution, collect_filedescriptors, collect_out_empty_data] at hd
    by_cases h1 : p1 = 1 ∨ p2 = 1 <;> by_cases h2 : p1 = 2 ∨ p2 = 2 <;>
      simp [h1, h2] at hd <;> omega
  | pipe_out p1 p2 =>
    simp only [contribution, collect_filedescriptors, collect_out_empty_data] at hd
    by_cases h1 : p1 = 1 ∨ p2 = 1 <;> by_cases h2 : p1 = 2 ∨ p2 = 2 <;>
      simp [h1, h2] at hd <;> omega
  | async_pipe_out p1 p2 =>
    simp only [contribution, collect_filedescriptors, collect_out_empty_data] at hd
    by_cases h1 : p1 = 1 ∨ p2 = 1 <;> by_cases h2 : p1 = 2 ∨ p2 = 2 <;>
      simp [h1, h2] at hd <;> omega

/-- A built-in kind contributes at most two entries. -/
theorem contribution_of_builtin_length (o : Property) (h : o.is_builtin = true) :
    (contribution o).length ≤ 2 := by
  cases o with
  | custom fds => cases h
  | unregistered => simp [contribution, collect_filedescriptors, vector.empty]
  | async_in_buffer =>
    have hc : contribution Property.async_in_buffer = [0] := rfl
    rw [hc]; simp
  | file_in =>
    have hc : contribution Property.file_in = [0] := rfl
    rw [hc]; simp
  | null_in =>
    have hc : contribution Property.null_in = [0] := rfl
    rw [hc]; simp
  | pipe_in =>
    have hc : contribution Property.pipe_in = [0] := rfl
    rw [hc]; simp
  | async_pipe_in =>
    have hc : contribution Property.async_pipe_in = [0] := rfl
    rw [hc]; simp
  | async_out_buffer p1 p2 =>
    simp only [contribution, collect_filedescriptors, collect_out_empty_data]
    by_cases h1 : p1 = 1 ∨ p2 = 1 <;> by_cases h2 : p1 = 2 ∨ p2 = 2 <;> simp [h1, h2]
  | async_out_future p1 p2 =>
    simp only [contribution, collect_filedescriptors, collect_out_empty_data]
    by_cases h1 : p1 = 1 ∨ p2 = 1 <;> by_cases h2 : p1 = 2 ∨ p2 = 2 <;> simp [h1, h2]
  | file_out p1 p2 =>
    simp only [contribution, collect_filedescriptors, collect_out_empty_data]
    by_cases h1 : p1 = 1 ∨ p2 = 1 <;> by_cases h2 : p1 = 2 ∨ p2 = 2 <;> simp [h1, h2]
  | null_out p1 p2 =>
    simp only [contribution, collect_filedescriptors, collect_out_empty_data]
    by_cases h1 : p1 = 1 ∨ p2 = 1 <;> by_cases h2 : p1 = 2 ∨ p2 = 2 <;> simp [h1, h2]
  | pipe_out p1 p2 =>
    simp only [contribution, collect_filedescriptors, collect_out_empty_data]
    by_cases h1 : p1 = 1 ∨ p2 = 1 <;> by_cases h2 : p1 = 2 ∨ p2 = 2 <;> simp [h1, h2]
  | async_pipe_out p1 p2 =>
    simp only [contribution, collect_filedescriptors, collect_out_empty_data]
    by_cases h1 : p1 = 1 ∨ p2 = 1 <;> by_cases h2 : p1 = 2 ∨ p2 = 2 <;> simp [h1, h2]

/-- A sequence of built-in kinds contributes at most two entries per
element. -/
theorem flatten_contribution_length_le (seq : List Property)
    (hs : ∀ o, o ∈ seq → o.is_builtin = true) :
    ((seq.map contribution).flatten).length ≤ 2 * seq.length := by
  induction seq with
  | nil => simp
  | cons o seq ih =>
    have h1 := contribution_of_builtin_length o (hs o (List.mem_cons_self _ _))
    have h2 := ih (fun o' ho' => hs o' (List.mem_cons_of_mem _ ho'))
    simp only [List.map_cons, List.flatten_cons, List.length_append, List.length_cons]
    omega

/-- A sequence of write kinds bound to both streams contributes exactly two
entries per element. -/
theorem flatten_contribution_length_eq (seq : List Property)
    (hs : ∀ o, o ∈ seq → o.binds_both = true) :
    ((seq.map contribution).flatten).length = 2 * seq.length := by
  induction seq with
  | nil => simp
  | cons o seq ih =>
    have h1 := contribution_of_binds_both o (hs o (List.mem_cons_self _ _))
    have h2 := ih (fun o' ho' => hs o' (List.mem_cons_of_mem _ ho'))
    simp only [List.map_cons, List.flatten_cons, List.length_append, List.length_cons, h1]
    simp only [List.length_nil]
    omega

/-! ## The claims -/

/-- C1. Enforcement postcondition: after the sort-and-close pass, whatever the
buffer, the limit and the descriptors open before, a descriptor `d` with
`0 ≤ d < maxfd` that occurs in the buffer is open exactly when it was open
before, and one that does not occur in the buffer is closed; with an empty
buffer every such descriptor is closed. -/
theorem enforcement_postcondition (fds : vector) (maxfd : Int) (proc : Process) (d : Int)
    (h0 : 0 ≤ d) (h1 : d < maxfd) :
    (d ∈ fds.data → (sort_and_close fds maxfd proc).2.is_open d = proc.is_open d) ∧
    (d ∉ fds.data → (sort_and_close fds maxfd proc).2.is_open d = false) ∧
    (fds.data = [] → (sort_and_close fds maxfd proc).2.is_open d = false) := by
  have key := is_open_sort_and_close fds maxfd proc d
  have hclosed : d ∉ fds.data → (sort_and_close fds maxfd proc).2.is_open d = false := by
    intro hd
    rw [← Bool.not_eq_true, key]
    rintro ⟨_, h | h⟩
    · exact h ⟨h0, h1⟩
    · exact hd h
  refine ⟨?_, hclosed, ?_⟩
  · intro hd
    rw [Bool.eq_iff_iff, key]
    exact ⟨fun h => h.1, fun h => ⟨h, Or.inr hd⟩⟩
  · intro he
    exact hclosed (by rw [he]; exact List.not_mem_nil d)

/-- C1 at buffer `[5, 1, 1]`, limit 8, descriptors 0, 1, 2, 5, 7, 9 open, for
the protected descriptor 1. -/
theorem enforcement_postcondition_witness :
    (0 : Int) ≤ 1 ∧ (1 : Int) < 8 ∧ (1 : Int) ∈ [5, 1, 1] ∧
    (sort_and_close ⟨[5, 1, 1], 3, 0⟩ 8 ⟨[0, 1, 2, 5, 7, 9], []⟩).2.is_open 1
      = Process.is_open ⟨[0, 1, 2, 5, 7, 9], []⟩ 1 :=
  ⟨by decide, by decide, by decide,
    (enforcement_postcondition ⟨[5, 1, 1], 3, 0⟩ 8 ⟨[0, 1, 2, 5, 7, 9], []⟩ 1
      (by decide) (by decide)).1 (by decide)⟩

/-- C2. Collector exactness: whatever the buffer held before, after the
collection pass it is the contribution of the executor followed by the
contribution of each property of the sequence, in sequence order; its length
is the total number of contributions; a descriptor is in it exactly when the
executor or some property of the sequence contributes it.  The contribution
of a property does not depend on the sink it is written to. -/
theorem collector_exactness (self : property_) (exec : PosixExecutor) :
    (self.collect exec).data
        = contribution exec.kind ++ (exec.seq.map contribution).flatten ∧
    (self.collect exec).size
        = (contribution exec.kind).length
          + ((exec.seq.map contribution).map List.length).sum ∧
    (∀ d, d ∈ (self.collect exec).data
        ↔ (d ∈ contribution exec.kind ∨ ∃ o, o ∈ exec.seq ∧ d ∈ contribution o)) ∧
    (∀ (o : Property) (outit : vector),
        (collect_filedescriptors o outit).data = outit.data ++ contribution o) := by
  have hdata := collect_data self exec
  simp only [contributions] at hdata
  refine ⟨hdata, ?_, ?_, ?_⟩
  · rw [vector.size, hdata, List.length_append, List.length_flatten]
  · intro d
    rw [hdata, List.mem_append, List.mem_flatten]
    constructor
    · rintro (h | ⟨l, hl, hd⟩)
      · exact Or.inl h
      · obtain ⟨o, ho, rfl⟩ := List.mem_map.mp hl
        exact Or.inr ⟨o, ho, hd⟩
    · rintro (h | ⟨o, ho, hd⟩)
      · exact Or.inl h
      · exact Or.inr ⟨_, List.mem_map.mpr ⟨o, ho, rfl⟩, hd⟩
  · intro o outit
    rw [collect_filedescriptors_eq, foldl_assign_outit_data]

/-- C3. Built-in write kinds: each of the six write overloads, for all
parameters `p1`, `p2`, appends to the sink fd 1 exactly when `p1 = 1` or
`p2 = 1`, then fd 2 exactly when `p1 = 2` or `p2 = 2`, and nothing else; the
two tests do not depend on each other, and an option bound to both streams
appends 1 then 2. -/
theorem builtin_write_kinds (p1 p2 : Int) (outit : vector) :
    let appended : List Int :=
      (if p1 = 1 ∨ p2 = 1 then [1] else []) ++ (if p1 = 2 ∨ p2 = 2 then [2] else [])
    (collect_filedescriptors (.async_out_buffer p1 p2) outit).data = outit.data ++ appended ∧
    (collect_filedescriptors (.async_out_future p1 p2) outit).data = outit.data ++ appended ∧
    (collect_filedescriptors (.file_out p1 p2) outit).data = outit.data ++ appended ∧
    (collect_filedescriptors (.null_out p1 p2) outit).data = outit.data ++ appended ∧
    (collect_filedescriptors (.pipe_out p1 p2) outit).data = outit.data ++ appended ∧
    (collect_filedescriptors (.async_pipe_out p1 p2) outit).data = outit.data ++ appended ∧
    ((1 : Int) ∈ appended ↔ (p1 = 1 ∨ p2 = 1)) ∧
    ((2 : Int) ∈ appended ↔ (p1 = 2 ∨ p2 = 2)) ∧
    appended ⊆ [1, 2] ∧
    (appended = [1, 2] ↔ ((p1 = 1 ∨ p2 = 1) ∧ (p1 = 2 ∨ p2 = 2))) := by
  intro appended
  have hout : (collect_out p1 p2 outit).data = outit.data ++ appended := by
    rw [collect_out_eq, foldl_assign_outit_data]
    rfl
  refine ⟨hout, hout, hout, hout, hout, hout, ?_, ?_, ?_, ?_⟩ <;>
    by_cases h1 : p1 = 1 ∨ p2 = 1 <;> by_cases h2 : p1 = 2 ∨ p2 = 2 <;>
    simp [appended, h1, h2]

/-- C4, as stated, fails.  With protected buffer `[0, 1, 2]`, limit 4 and
descriptors 0, 1, 2, 3, 7 open, the pass closes 3 only: descriptor 7, which is
not below the limit, is still open on return and is not in the buffer. -/
theorem open_subset_of_protected_counterexample :
    (sort_and_close ⟨[0, 1, 2], 4, 1⟩ 4 ⟨[0, 1, 2, 3, 7], []⟩).2
        = ⟨[0, 1, 2, 7], [3]⟩ ∧
    (sort_and_close ⟨[0, 1, 2], 4, 1⟩ 4 ⟨[0, 1, 2, 3, 7], []⟩).2.is_open 7 = true ∧
    (7 : Int) ∉ [0, 1, 2] := by
  decide

/-- C4, amended. Enforcement success condition below the limit: when the
closing pass returns, every descriptor `d` with `0 ≤ d < maxfd` that is still
open is a member of the protected buffer. -/
theorem open_below_limit_subset_of_protected (fds : vector) (maxfd : Int) (proc : Process)
    (d : Int) (h0 : 0 ≤ d) (h1 : d < maxfd)
    (hopen : (sort_and_close fds maxfd proc).2.is_open d = true) :
    d ∈ fds.data := by
  rcases ((is_open_sort_and_close fds maxfd proc d).mp hopen).2 with h | h
  · exact absurd ⟨h0, h1⟩ h
  · exact h

/-- C4, amended, at buffer `[0, 1, 2]`, limit 4, descriptors 0, 1, 2, 3, 7
open, for descriptor 1. -/
theorem open_below_limit_subset_of_protected_witness :
    (0 : Int) ≤ 1 ∧ (1 : Int) < 4 ∧
    (sort_and_close ⟨[0, 1, 2], 4, 1⟩ 4 ⟨[0, 1, 2, 3, 7], []⟩).2.is_open 1 = true ∧
    (1 : Int) ∈ [0, 1, 2] :=
  ⟨by decide, by decide, by decide,
    open_below_limit_subset_of_protected ⟨[0, 1, 2], 4, 1⟩ 4 ⟨[0, 1, 2, 3, 7], []⟩ 1
      (by decide) (by decide) (by decide)⟩

/-- C5. No-op default: a property for which only the primary template is
viable contributes nothing; inserted at any position of the sequence it
leaves the collected buffer, and the whole effect of `on_exec_setup` (buffer
and process), the same as without it. -/
theorem unregistered_is_noop (self : property_) (kind : Property) (l₁ l₂ : List Property)
    (maxfd : Int) (proc : Process) :
    contribution .unregistered = [] ∧
    (∀ outit : vector, collect_filedescriptors .unregistered outit = outit) ∧
    self.collect ⟨kind, l₁ ++ .unregistered :: l₂⟩ = self.collect ⟨kind, l₁ ++ l₂⟩ ∧
    self.on_exec_setup ⟨kind, l₁ ++ .unregistered :: l₂⟩ maxfd proc
      = self.on_exec_setup ⟨kind, l₁ ++ l₂⟩ maxfd proc := by
  have hc : self.collect ⟨kind, l₁ ++ .unregistered :: l₂⟩ = self.collect ⟨kind, l₁ ++ l₂⟩ := by
    simp only [property_.collect, for_each, List.foldl_append, List.foldl_cons, collect_fd_f,
      collect_filedescriptors]
  refine ⟨rfl, fun _ => rfl, hc, ?_⟩
  simp only [property_.on_exec_setup, hc]

/-- C6. Idempotence of enforcement: a second sort-and-close pass, with the
same limit, on the buffer as the first pass left it (or on the buffer as it
was before the first pass), leaves open exactly the descriptors the first
pass left open. -/
theorem enforcement_idempotent (fds : vector) (maxfd : Int) (proc : Process) :
    (sort_and_close (sort_and_close fds maxfd proc).1 maxfd
        (sort_and_close fds maxfd proc).2).2.open_fds
      = (sort_and_close fds maxfd proc).2.open_fds ∧
    (sort_and_close fds maxfd (sort_and_close fds maxfd proc).2).2.open_fds
      = (sort_and_close fds maxfd proc).2.open_fds := by
  have h1 : (sort_and_close fds maxfd (sort_and_close fds maxfd proc).2).2.open_fds
      = (sort_and_close fds maxfd proc).2.open_fds := by
    rw [sort_and_close_open_fds fds maxfd (sort_and_close fds maxfd proc).2,
      List.filter_eq_self]
    intro d hd
    rw [sort_and_close_open_fds, List.mem_filter] at hd
    exact hd.2
  refine ⟨?_, h1⟩
  have hcongr : (sort_and_close (sort_and_close fds maxfd proc).1 maxfd
      (sort_and_close fds maxfd proc).2).2
      = (sort_and_close fds maxfd (sort_and_close fds maxfd proc).2).2 := by
    apply sort_and_close_congr
    intro d
    simp only [sort_and_close, mem_sort]
  rw [hcongr, h1]

/-- C7. Duplicates are harmless: two buffers with the same set of values make
the sort-and-close pass issue the same `::close` calls and leave the same
descriptors open, for every limit and every initial state. -/
theorem duplicates_harmless (fds₁ fds₂ : vector) (maxfd : Int) (proc : Process)
    (h : ∀ d, d ∈ fds₁.data ↔ d ∈ fds₂.data) :
    (sort_and_close fds₁ maxfd proc).2 = (sort_and_close fds₂ maxfd proc).2 :=
  sort_and_close_congr h maxfd proc

/-- C7 at the buffers `[1, 1]` and `[1]`, limit 4, descriptors 0, 1, 2, 5
open. -/
theorem duplicates_harmless_witness :
    (∀ d : Int, d ∈ [1, 1] ↔ d ∈ [1]) ∧
    (sort_and_close ⟨[1, 1], 2, 0⟩ 4 ⟨[0, 1, 2, 5], []⟩).2
      = (sort_and_close ⟨[1], 2, 0⟩ 4 ⟨[0, 1, 2, 5], []⟩).2 :=
  ⟨fun d => by simp,
    duplicates_harmless ⟨[1, 1], 2, 0⟩ ⟨[1], 2, 0⟩ 4 ⟨[0, 1, 2, 5], []⟩ (fun d => by simp)⟩

/-- C8. Order independence of collection: a second collection from the
unchanged configuration, by the handler as a first `on_exec_setup` left it,
yields the same entries; for a sequence rearranged in any way the collected
buffer is a rearrangement of the original one, the sorted buffer is the same,
and so are the `::close` calls made and the descriptors left open. -/
theorem collection_order_independent (self : property_) (exec : PosixExecutor)
    (seq' : List Property) (maxfd : Int) (proc : Process) (hperm : seq'.Perm exec.seq) :
    ((self.on_exec_setup exec maxfd proc).1.collect exec).data.Perm (self.collect exec).data ∧
    (self.collect ⟨exec.kind, seq'⟩).data.Perm (self.collect exec).data ∧
    (self.on_exec_setup ⟨exec.kind, seq'⟩ maxfd proc).1._protected_fds.data
      = (self.on_exec_setup exec maxfd proc).1._protected_fds.data ∧
    (self.on_exec_setup ⟨exec.kind, seq'⟩ maxfd proc).2
      = (self.on_exec_setup exec maxfd proc).2 := by
  have hp : (self.collect ⟨exec.kind, seq'⟩).data.Perm (self.collect exec).data := by
    rw [collect_data, collect_data]
    exact contributions_perm exec.kind hperm
  refine ⟨?_, hp, ?_, ?_⟩
  · rw [collect_data, collect_data]
  · simp only [property_.on_exec_setup, sort_and_close]
    exact sort_eq_of_perm hp
  · simp only [property_.on_exec_setup]
    exact sort_and_close_congr (fun d => hp.mem_iff) maxfd proc

/-- C8 at the sequence `[file_in, pipe_out<1,2>]` and its reversal, limit 5,
descriptors 0, 1, 2, 3, 9 open. -/
theorem collection_order_independent_witness :
    [Property.pipe_out 1 2, Property.file_in].Perm [Property.file_in, Property.pipe_out 1 2] ∧
    ((property_.construct 4).on_exec_setup ⟨.unregistered, [.pipe_out 1 2, .file_in]⟩ 5
        ⟨[0, 1, 2, 3, 9], []⟩).2
      = ((property_.construct 4).on_exec_setup ⟨.unregistered, [.file_in, .pipe_out 1 2]⟩ 5
        ⟨[0, 1, 2, 3, 9], []⟩).2 :=
  ⟨List.Perm.swap _ _ _,
    (collection_order_independent (property_.construct 4)
      ⟨.unregistered, [.file_in, .pipe_out 1 2]⟩ [.pipe_out 1 2, .file_in] 5
      ⟨[0, 1, 2, 3, 9], []⟩ (List.Perm.swap _ _ _)).2.2.2⟩

/-- C9, as stated, fails.  For the configuration `[file_in, pipe_out<1,-1>]`
with limit 4 and descriptors 0, 1, 2, 3, 7 open, the sorted buffer is `[0, 1]`
and the handler closes 2 and 3 only: descriptor 7, open and at least 3, is
still open afterwards. -/
theorem scenario_file_in_pipe_out_counterexample :
    (property_.construct 2).on_exec_setup ⟨.unregistered, [.file_in, .pipe_out 1 (-1)]⟩ 4
        ⟨[0, 1, 2, 3, 7], []⟩
      = (⟨⟨[0, 1], 2, 1⟩⟩, ⟨[0, 1, 7], [2, 3]⟩) ∧
    Process.is_open ⟨[0, 1, 2, 3, 7], []⟩ 7 = true ∧ (3 : Int) ≤ 7 ∧
    ((property_.construct 2).on_exec_setup ⟨.unregistered, [.file_in, .pipe_out 1 (-1)]⟩ 4
        ⟨[0, 1, 2, 3, 7], []⟩).2.is_open 7 = true := by
  decide

/-- C9, amended. End-to-end scenario: for the configuration
`[file_in, pipe_out<1,-1>]` with an executor that contributes nothing, the
buffer after sorting is exactly `[0, 1]`; after `on_exec_setup` every
descriptor `d` with `2 ≤ d < maxfd` is closed, and descriptors 0 and 1 are
open exactly when they were open before the call. -/
theorem scenario_file_in_pipe_out (self : property_) (kind : Property) (maxfd : Int)
    (proc : Process) (hk : contribution kind = []) :
    (self.on_exec_setup ⟨kind, [.file_in, .pipe_out 1 (-1)]⟩ maxfd proc).1._protected_fds.data
      = [0, 1] ∧
    (∀ d, 2 ≤ d → d < maxfd →
      (self.on_exec_setup ⟨kind, [.file_in, .pipe_out 1 (-1)]⟩ maxfd proc).2.is_open d
        = false) ∧
    (self.on_exec_setup ⟨kind, [.file_in, .pipe_out 1 (-1)]⟩ maxfd proc).2.is_open 0
      = proc.is_open 0 ∧
    (self.on_exec_setup ⟨kind, [.file_in, .pipe_out 1 (-1)]⟩ maxfd proc).2.is_open 1
      = proc.is_open 1 := by
  have hdata : (self.collect ⟨kind, [.file_in, .pipe_out 1 (-1)]⟩).data = [0, 1] := by
    rw [collect_data]
    simp only [contributions, hk]
    decide
  have key := is_open_sort_and_close (self.collect ⟨kind, [.file_in, .pipe_out 1 (-1)]⟩)
    maxfd proc
  rw [hdata] at key
  simp only [property_.on_exec_setup]
  refine ⟨?_, ?_, ?_, ?_⟩
  · simp only [sort_and_close, hdata]
    decide
  · intro d h2 hlt
    rw [← Bool.not_eq_true, key]
    rintro ⟨_, h | h⟩
    · exact h ⟨by omega, hlt⟩
    · simp only [List.mem_cons, List.mem_singleton, List.not_mem_nil, or_false] at h
      omega
  · rw [Bool.eq_iff_iff, key]
    exact ⟨fun h => h.1, fun h => ⟨h, Or.inr (by simp)⟩⟩
  · rw [Bool.eq_iff_iff, key]
    exact ⟨fun h => h.1, fun h => ⟨h, Or.inr (by simp)⟩⟩

/-- C9, amended, at limit 4 with descriptors 0, 1, 2, 3, 7 open, for
descriptor 2. -/
theorem scenario_file_in_pipe_out_witness :
    contribution .unregistered = [] ∧ (2 : Int) ≤ 2 ∧ (2 : Int) < 4 ∧
    ((property_.construct 2).on_exec_setup ⟨.unregistered, [.file_in, .pipe_out 1 (-1)]⟩ 4
        ⟨[0, 1, 2, 3, 7], []⟩).2.is_open 2 = false :=
  ⟨rfl, by decide, by decide,
    (scenario_file_in_pipe_out (property_.construct 2) .unregistered 4
      ⟨[0, 1, 2, 3, 7], []⟩ rfl).2.1 2 (by decide) (by decide)⟩

/-- C10, as stated, fails.  A handler constructed with capacity 1 for the
one-option configuration `[pipe_out<1,2>]` collects two entries: the second
assignment finds the storage full and reallocates it, the capacity growing
from 1 to 2. -/
theorem capacity_counterexample :
    [Property.pipe_out 1 2].length ≤ 1 ∧
    (property_.construct 1)._protected_fds = ⟨[], 1, 1⟩ ∧
    (property_.construct 1).collect ⟨.unregistered, [.pipe_out 1 2]⟩ = ⟨[1, 2], 2, 2⟩ := by
  decide

/-- C10, amended. Capacity sizing guarantee: if the handler was constructed
with a capacity at least equal to the total number of entries the
configuration contributes, then the collection pass of `on_exec_setup`, on the
first call and on a second one, appends no more entries than the reserved
capacity and neither grows nor reallocates the buffer storage. -/
theorem capacity_sizing (capacity : Nat) (exec : PosixExecutor) (maxfd : Int)
    (proc : Process)
    (h : (contribution exec.kind).length
          + ((exec.seq.map contribution).map List.length).sum ≤ capacity) :
    ((property_.construct capacity).collect exec).size ≤ capacity ∧
    ((property_.construct capacity).on_exec_setup exec maxfd proc).1._protected_fds.capacity
      = capacity ∧
    ((property_.construct capacity).on_exec_setup exec maxfd proc).1._protected_fds.reallocations
      = (property_.construct capacity)._protected_fds.reallocations ∧
    (((property_.construct capacity).on_exec_setup exec maxfd proc).1.on_exec_setup exec maxfd
        ((property_.construct capacity).on_exec_setup exec maxfd proc).2).1._protected_fds.capacity
      = capacity ∧
    (((property_.construct capacity).on_exec_setup exec maxfd proc).1.on_exec_setup exec maxfd
        ((property_.construct capacity).on_exec_setup exec maxfd
          proc).2).1._protected_fds.reallocations
      = (property_.construct capacity)._protected_fds.reallocations := by
  have hlen : (contributions exec).length ≤ capacity := by
    simp only [contributions, List.length_append, List.length_flatten]
    exact h
  have hcap := construct_capacity capacity
  obtain ⟨c1, r1⟩ := collect_storage (property_.construct capacity) exec (by rw [hcap]; exact hlen)
  have hst : ∀ (self : property_),
      (self.on_exec_setup exec maxfd proc).1._protected_fds.capacity
        = (self.collect exec).capacity ∧
      (self.on_exec_setup exec maxfd proc).1._protected_fds.reallocations
        = (self.collect exec).reallocations := fun _ => ⟨rfl, rfl⟩
  have hst2 : ∀ (self : property_) (proc' : Process),
      (self.on_exec_setup exec maxfd proc').1._protected_fds.capacity
        = (self.collect exec).capacity ∧
      (self.on_exec_setup exec maxfd proc').1._protected_fds.reallocations
        = (self.collect exec).reallocations := fun _ _ => ⟨rfl, rfl⟩
  have hfirst_c := (hst (property_.construct capacity)).1.trans (c1.trans hcap)
  have hfirst_r := (hst (property_.construct capacity)).2.trans r1
  obtain ⟨c2, r2⟩ := collect_storage
    ((property_.construct capacity).on_exec_setup exec maxfd proc).1 exec
    (by rw [hfirst_c]; exact hlen)
  refine ⟨?_, hfirst_c, hfirst_r, ?_, ?_⟩
  · rw [vector.size, collect_data]; exact hlen
  · exact (hst2 _ _).1.trans (c2.trans hfirst_c)
  · exact (hst2 _ _).2.trans (r2.trans hfirst_r)

/-- C10, amended, at capacity 2 for the configuration `[pipe_out<1,2>]`. -/
theorem capacity_sizing_witness :
    (contribution .unregistered).length
        + (([Property.pipe_out 1 2].map contribution).map List.length).sum ≤ 2 ∧
    ((property_.construct 2).on_exec_setup ⟨.unregistered, [.pipe_out 1 2]⟩ 4
        ⟨[0, 1, 2, 3], []⟩).1._protected_fds.reallocations
      = (property_.construct 2)._protected_fds.reallocations :=
  ⟨by decide,
    (capacity_sizing 2 ⟨.unregistered, [.pipe_out 1 2]⟩ 4 ⟨[0, 1, 2, 3], []⟩
      (by decide)).2.2.1⟩

/-- C11. Sorted binary search refines plain membership: for every buffer and
every integer, `std::binary_search` over the buffer after `std::sort` answers
true exactly when the integer occurs in the unsorted buffer; hence the
sort-and-close pass leaves the process as the naive pass does, which closes
each descriptor of `[0, maxfd)` that fails a linear membership test on the
unsorted buffer. -/
theorem binary_search_refines_membership (fds : vector) (value : Int) (maxfd : Int)
    (proc : Process) :
    (binary_search (sort fds.data) value = true ↔ value ∈ fds.data) ∧
    (sort_and_close fds maxfd proc).2 = naive_close_pass fds.data maxfd proc := by
  refine ⟨binary_search_sort fds.data value, ?_⟩
  simp only [sort_and_close, naive_close_pass, close_loop_descriptors_below]
  congr 1
  funext p d
  by_cases hd : d ∈ fds.data
  · rw [if_pos hd, if_pos ((binary_search_sort fds.data d).mpr hd)]
  · rw [if_neg hd, if_neg (fun hb => hd ((binary_search_sort fds.data d).mp hb))]

/-- C12. Close-call trace: the descriptors the sort-and-close pass hands to
`::close`, in the order of the calls, are exactly the integers of `[0, maxfd)`
that do not occur in the buffer, ascending, each once; so no descriptor of the
buffer and no descriptor outside `[0, maxfd)` is handed to `::close`.  For
`on_exec_setup` the buffer is the collected one. -/
theorem close_call_trace (fds : vector) (maxfd : Int) (proc : Process) :
    (sort_and_close fds maxfd proc).2.close_calls
      = proc.close_calls
          ++ (descriptors_below maxfd).filter (fun d => decide (d ∉ fds.data)) ∧
    ((descriptors_below maxfd).filter (fun d => decide (d ∉ fds.data))).Pairwise
      (fun a b => a < b) ∧
    ((descriptors_below maxfd).filter (fun d => decide (d ∉ fds.data))).Nodup ∧
    (∀ d, d ∈ (descriptors_below maxfd).filter (fun d => decide (d ∉ fds.data))
      ↔ (0 ≤ d ∧ d < maxfd ∧ d ∉ fds.data)) ∧
    (∀ (self : property_) (exec : PosixExecutor),
      (self.on_exec_setup exec maxfd proc).2.close_calls
        = proc.close_calls ++ (descriptors_below maxfd).filter
            (fun d => decide
              (d ∉ contribution exec.kind ++ (exec.seq.map contribution).flatten))) := by
  have hp := (descriptors_below_pairwise maxfd).filter (fun d => decide (d ∉ fds.data))
  refine ⟨sort_and_close_close_calls fds maxfd proc, hp, ?_, ?_, ?_⟩
  · exact hp.imp (fun h => ne_of_lt h)
  · intro d
    simp only [List.mem_filter, mem_descriptors_below, decide_eq_true_eq]
    tauto
  · intro self exec
    have h := sort_and_close_close_calls (self.collect exec) maxfd proc
    rw [collect_data] at h
    exact h

/-- C13. Close failures are ignored: whatever `::close` returns and does
(`sys_close` arbitrary), the loop hands to it exactly the descriptors of
`[0, maxfd)` that are not in the buffer, ascending, the same calls the handler
makes on the process model; the loop ends through its guard, more turns
changing nothing, and there is no error to report; and `::close` on a
descriptor that is not open returns -1 and leaves the open descriptors as they
were. -/
theorem close_failures_ignored {σ : Type} (sys_close : σ → Int → Int × σ) (fds : vector)
    (maxfd : Int) (st : σ) (proc : Process) :
    (sort_and_close_sys sys_close fds maxfd st).2.2
      = (descriptors_below maxfd).filter (fun d => decide (d ∉ fds.data)) ∧
    (sort_and_close fds maxfd proc).2.close_calls
      = proc.close_calls ++ (sort_and_close_sys sys_close fds maxfd st).2.2 ∧
    (∀ fuel : Nat, maxfd.toNat ≤ fuel →
      close_loop_sys sys_close (sort fds.data) maxfd fuel 0 (st, [])
        = (sort_and_close_sys sys_close fds maxfd st).2) ∧
    (sort_and_close_sys close fds maxfd proc).2.1 = (sort_and_close fds maxfd proc).2 ∧
    (∀ fd, proc.is_open fd = false →
      (close proc fd).1 = -1 ∧ (close proc fd).2.open_fds = proc.open_fds) := by
  have hcalls : (sort_and_close_sys sys_close fds maxfd st).2.2
      = (descriptors_below maxfd).filter (fun d => decide (d ∉ fds.data)) := by
    simp only [sort_and_close_sys]
    by_cases hm : 0 ≤ maxfd
    · have h := close_loop_sys_calls sys_close (sort fds.data) maxfd maxfd.toNat 0 (st, [])
        (by rw [Int.toNat_of_nonneg hm]; simp)
      simp only [Nat.cast_zero, List.nil_append] at h
      rw [h, descriptors_below, List.range_eq_range']
      apply List.filter_congr
      intro d _
      have hb : binary_search (sort fds.data) d = decide (d ∈ fds.data) := by
        rw [Bool.eq_iff_iff, binary_search_sort]; simp
      rw [hb]
      by_cases h : d ∈ fds.data <;> simp [h]
    · have h0 : maxfd.toNat = 0 := by omega
      simp [descriptors_below, h0, close_loop_sys]
  refine ⟨hcalls, ?_, ?_, ?_, ?_⟩
  · rw [hcalls]
    exact sort_and_close_close_calls fds maxfd proc
  · intro fuel hf
    simp only [sort_and_close_sys]
    have h1 := close_loop_sys_fuel sys_close (sort fds.data) maxfd fuel 0 (st, [])
      (by simpa using hf)
    have h2 := close_loop_sys_fuel sys_close (sort fds.data) maxfd maxfd.toNat 0 (st, [])
      (by simp)
    rw [h1, ← h2]
  · simp only [sort_and_close_sys, sort_and_close]
    exact close_loop_sys_close _ _ _ _ _
  · intro fd hfd
    have hmem : fd ∉ proc.open_fds := by
      simpa [Process.is_open] using hfd
    refine ⟨by simp [close, hmem], ?_⟩
    simp only [close]
    rw [List.filter_eq_self]
    intro d hd
    have : d ≠ fd := fun e => hmem (e ▸ hd)
    simpa using this

/-- C13 with a `::close` that always fails and changes nothing, at buffer
`[1]`, limit 4, descriptors 0 and 1 open: the calls are 0, 2, 3 all the same,
also with 10 turns allowed; and closing descriptor 2, not open, changes
nothing. -/
theorem close_failures_ignored_witness :
    (sort_and_close_sys (fun (t : List Int) (_ : Int) => ((-1 : Int), t)) ⟨[1], 1, 1⟩ 4
        [0, 1]).2.2 = [0, 2, 3] ∧
    (4 : Int).toNat ≤ 10 ∧
    close_loop_sys (fun (t : List Int) (_ : Int) => ((-1 : Int), t)) (sort [1]) 4 10 0
        ([0, 1], [])
      = (sort_and_close_sys (fun (t : List Int) (_ : Int) => ((-1 : Int), t)) ⟨[1], 1, 1⟩ 4
        [0, 1]).2 ∧
    Process.is_open ⟨[0, 1], []⟩ 2 = false ∧
    (close ⟨[0, 1], []⟩ 2).2.open_fds = [0, 1] :=
  ⟨((close_failures_ignored (fun (t : List Int) (_ : Int) => ((-1 : Int), t)) ⟨[1], 1, 1⟩ 4
      [0, 1] ⟨[0, 1], []⟩).1).trans (by decide),
    by decide,
    (close_failures_ignored (fun (t : List Int) (_ : Int) => ((-1 : Int), t)) ⟨[1], 1, 1⟩ 4
      [0, 1] ⟨[0, 1], []⟩).2.2.1 10 (by decide),
    by decide,
    ((close_failures_ignored (fun (t : List Int) (_ : Int) => ((-1 : Int), t)) ⟨[1], 1, 1⟩ 4
      [0, 1] ⟨[0, 1], []⟩).2.2.2.2 2 (by decide)).2⟩

/-- C14. Buffer reuse across passes: whatever the buffer held before,
`on_exec_setup` first brings its length to zero and leaves capacity and
storage as they were; the buffer then collected holds this configuration's
contributions only, the same entries as collected from an empty buffer, and is
the very vector collected from the same storage with no previous content. -/
theorem buffer_reuse (self : property_) (exec : PosixExecutor) :
    (self._protected_fds.resize 0).data = [] ∧
    (self._protected_fds.resize 0).capacity = self._protected_fds.capacity ∧
    (self._protected_fds.resize 0).reallocations = self._protected_fds.reallocations ∧
    (self.collect exec).data
      = contribution exec.kind ++ (exec.seq.map contribution).flatten ∧
    (self.collect exec).data = (property_.collect ⟨vector.empty⟩ exec).data ∧
    self.collect exec
      = property_.collect ⟨{ self._protected_fds with data := [] }⟩ exec := by
  have hr : self._protected_fds.resize 0 = { self._protected_fds with data := [] } := by
    simp [vector.resize]
  refine ⟨by rw [hr], by rw [hr], by rw [hr], ?_, ?_, ?_⟩
  · rw [collect_data, contributions]
  · rw [collect_data, collect_data]
  · simp only [property_.collect, hr]
    simp [vector.resize]

/-- C15. Built-in contributions stay within the standard streams: each read
kind contributes exactly `[0]`; for a configuration whose executor and
properties are all of built-in kinds, every entry of the collected buffer is
0, 1 or 2, and after `on_exec_setup` every descriptor `d` with
`3 ≤ d < maxfd` is closed. -/
theorem builtin_within_standard_streams (self : property_) (exec : PosixExecutor)
    (maxfd : Int) (proc : Process) (hk : exec.kind.is_builtin = true)
    (hs : ∀ o, o ∈ exec.seq → o.is_builtin = true) :
    (∀ o : Property, o.is_read = true → contribution o = [0]) ∧
    (∀ d, d ∈ (self.collect exec).data → d = 0 ∨ d = 1 ∨ d = 2) ∧
    (∀ d, 3 ≤ d → d < maxfd → (self.on_exec_setup exec maxfd proc).2.is_open d = false) := by
  have hmem : ∀ d, d ∈ (self.collect exec).data → d = 0 ∨ d = 1 ∨ d = 2 := by
    intro d hd
    rw [collect_data, contributions, List.mem_append, List.mem_flatten] at hd
    rcases hd with h | ⟨l, hl, hdl⟩
    · exact contribution_of_builtin_mem _ hk d h
    · obtain ⟨o, ho, rfl⟩ := List.mem_map.mp hl
      exact contribution_of_builtin_mem o (hs o ho) d hdl
  refine ⟨contribution_of_read, hmem, ?_⟩
  intro d h3 hlt
  simp only [property_.on_exec_setup]
  rw [← Bool.not_eq_true, is_open_sort_and_close]
  rintro ⟨_, h | h⟩
  · exact h ⟨by omega, hlt⟩
  · have := hmem d h
    omega

/-- C15 at the configuration `[file_in, pipe_out<1,2>, unregistered]`, limit 6,
descriptors 0, 1, 2, 3, 5 open, for descriptor 5. -/
theorem builtin_within_standard_streams_witness :
    Property.is_builtin .unregistered = true ∧
    (∀ o, o ∈ [Property.file_in, Property.pipe_out 1 2, Property.unregistered]
      → o.is_builtin = true) ∧
    (3 : Int) ≤ 5 ∧ (5 : Int) < 6 ∧
    ((property_.construct 3).on_exec_setup
        ⟨.unregistered, [.file_in, .pipe_out 1 2, .unregistered]⟩ 6
        ⟨[0, 1, 2, 3, 5], []⟩).2.is_open 5 = false :=
  ⟨rfl, by decide, by decide, by decide,
    (builtin_within_standard_streams (property_.construct 3)
      ⟨.unregistered, [.file_in, .pipe_out 1 2, .unregistered]⟩ 6 ⟨[0, 1, 2, 3, 5], []⟩
      rfl (by decide)).2.2 5 (by decide) (by decide)⟩

/-- C16. Non-positive limit closes nothing: when the limit read into `maxfd`
is zero or negative, the closing loop makes no `::close` call and leaves the
open descriptors untouched, protected or not, for every buffer and every
initial state; so does `on_exec_setup` as a whole. -/
theorem nonpositive_limit_closes_nothing (fds : vector) (maxfd : Int) (proc : Process)
    (h : maxfd ≤ 0) :
    (sort_and_close fds maxfd proc).2 = proc ∧
    (sort_and_close fds maxfd proc).2.close_calls = proc.close_calls ∧
    (sort_and_close fds maxfd proc).2.open_fds = proc.open_fds ∧
    (∀ (self : property_) (exec : PosixExecutor),
      (self.on_exec_setup exec maxfd proc).2 = proc) := by
  have h0 : maxfd.toNat = 0 := by omega
  have key : ∀ v : vector, (sort_and_close v maxfd proc).2 = proc := by
    intro v
    simp only [sort_and_close, h0, close_loop]
  refine ⟨key fds, by rw [key], by rw [key], ?_⟩
  intro self exec
  simp only [property_.on_exec_setup]
  exact key _

/-- C16 at limit -1 with an empty buffer and descriptors 0, 1, 2, 7 open. -/
theorem nonpositive_limit_closes_nothing_witness :
    (-1 : Int) ≤ 0 ∧
    (sort_and_close ⟨[], 0, 0⟩ (-1) ⟨[0, 1, 2, 7], []⟩).2 = ⟨[0, 1, 2, 7], []⟩ :=
  ⟨by decide,
    (nonpositive_limit_closes_nothing ⟨[], 0, 0⟩ (-1) ⟨[0, 1, 2, 7], []⟩ (by decide)).1⟩

/-- C17. Bound on the collected count: each read kind appends exactly one
entry, each write kind at most two, an unregistered kind none; for a
configuration of `n` built-in properties whose executor contributes nothing
the collected buffer has at most `2 * n` entries, exactly `2 * n` when every
property is a write kind bound to both standard output and standard error;
and a handler constructed with capacity `2 * n` collects without growing or
reallocating its storage. -/
theorem collected_count_bound (self : property_) (exec : PosixExecutor)
    (hk : contribution exec.kind = [])
    (hs : ∀ o, o ∈ exec.seq → o.is_builtin = true) :
    (∀ o : Property, o.is_read = true → (contribution o).length = 1) ∧
    (∀ o : Property, o.is_write = true → (contribution o).length ≤ 2) ∧
    (contribution .unregistered).length = 0 ∧
    (self.collect exec).size ≤ 2 * exec.seq.length ∧
    ((∀ o, o ∈ exec.seq → o.binds_both = true) →
      (self.collect exec).size = 2 * exec.seq.length) ∧
    ((property_.construct (2 * exec.seq.length)).collect exec).capacity
      = 2 * exec.seq.length ∧
    ((property_.construct (2 * exec.seq.length)).collect exec).reallocations
      = (property_.construct (2 * exec.seq.length))._protected_fds.reallocations := by
  have hsize : (self.collect exec).size = ((exec.seq.map contribution).flatten).length := by
    rw [vector.size, collect_data, contributions, hk, List.nil_append]
  have hle := flatten_contribution_length_le exec.seq hs
  have hlen : (contributions exec).length ≤ 2 * exec.seq.length := by
    rw [contributions, hk, List.nil_append]; exact hle
  have hcap := construct_capacity (2 * exec.seq.length)
  obtain ⟨c1, r1⟩ := collect_storage (property_.construct (2 * exec.seq.length)) exec
    (by rw [hcap]; exact hlen)
  refine ⟨?_, ?_, rfl, ?_, ?_, c1.trans hcap, r1⟩
  · intro o ho
    rw [contribution_of_read o ho]
    rfl
  · intro o ho
    apply contribution_of_builtin_length
    cases o <;> first | rfl | cases ho
  · rw [hsize]; exact hle
  · intro hb
    rw [hsize]
    exact flatten_contribution_length_eq exec.seq hb

/-- C17 at the configuration `[pipe_out<1,2>, file_out<2,1>]`: four entries
for two properties. -/
theorem collected_count_bound_witness :
    contribution .unregistered = [] ∧
    (∀ o, o ∈ [Property.pipe_out 1 2, Property.file_out 2 1] → o.is_builtin = true) ∧
    (∀ o, o ∈ [Property.pipe_out 1 2, Property.file_out 2 1] → o.binds_both = true) ∧
    ((property_.construct 1).collect ⟨.unregistered, [.pipe_out 1 2, .file_out 2 1]⟩).size
      = 2 * [Property.pipe_out 1 2, Property.file_out 2 1].length :=
  ⟨rfl, by decide, by decide,
    (collected_count_bound (property_.construct 1)
      ⟨.unregistered, [.pipe_out 1 2, .file_out 2 1]⟩ rfl (by decide)).2.2.2.2.1
      (by decide)⟩

end fd_restrict
